import Mathlib

/-!
Verification development for the athena-mcp-registry lookup service.

The definitions below are a shallow embedding of
src/services/lookup.service.ts together with the query schema of the
lookup type declarations. JavaScript strings are modelled by Lean
String and List Char, the integral JavaScript numbers appearing here
by Nat and Int, fallible database access by Except, and the module
level mutable cache and the in-place array sorts by explicit state
passing.
-/

/-!
Domain pattern matcher.

The source function matchesWildcard converts the pattern to a regular
expression by escaping literal dots, mapping each star to a dot-star
group, and anchoring the whole pattern. Testing a domain against that
anchored regular expression is exactly glob matching: literal
characters must match one for one and each star stands for an
arbitrary character sequence, that is, the text after a star group
matches when the remaining pattern accepts some suffix of the
remaining text. The model below implements that glob semantics
directly, structurally in the pattern. It is faithful for patterns
built from domain characters, where the only regular-expression
metacharacters are the escaped dot and the star, and for domains
without line breaks.
-/
def globMatch : List Char → List Char → Bool
  | [], d => d.isEmpty
  | c :: ps, d =>
    if c = '*' then
      d.tails.any (fun s => globMatch ps s)
    else
      match d with
      | [] => false
      | x :: ds => c == x && globMatch ps ds

/-- Model of matchesWildcard from the lookup service. -/
def matchesWildcard (domain pat : String) : Bool :=
  globMatch pat.data domain.data

/-- Replacement of every star of a pattern by a fixed label, used to
state the substitution property of wildcard matching. -/
def substStarL (lab : List Char) : List Char → List Char
  | [] => []
  | c :: cs => (if c = '*' then lab else [c]) ++ substStarL lab cs

/-- String version of substStarL. -/
def substStar (pat lab : String) : String :=
  String.mk (substStarL lab.data pat.data)

/-- Literal tail of a pattern after its last star. -/
def afterLastStar : List Char → List Char
  | [] => []
  | c :: ps => if c = '*' ∧ '*' ∉ ps then ps else afterLastStar ps

/-!
Model of the JavaScript split on a single-character separator, as used
by calculateWildcardConfidence via String.prototype.split with a dot.
-/
def splitOnChar (sep : Char) : List Char → List (List Char)
  | [] => [[]]
  | c :: cs =>
    if c = sep then [] :: splitOnChar sep cs
    else
      match splitOnChar sep cs with
      | [] => [[c]]
      | w :: ws => (c :: w) :: ws

/-!
Model of calculateWildcardConfidence. The source computes
Math.round(70 + specificityRatio * 20) with
specificityRatio = specificParts / totalParts evaluated in floating
point. For the rational value 70 + 20 * s / t with t at least 1 the
JavaScript rounding (round half towards positive infinity) equals
the floor of (141 * t + 40 * s) / (2 * t), which is the Nat division
below; the floating point evaluation agrees with the exact rational
one on every half-integer tie and everywhere else the distance to the
nearest tie is far larger than the rounding error for any realistic
segment count. totalParts is never zero because a split always yields
at least one part.
-/
def calculateWildcardConfidence (domain pat : String) : Nat :=
  let patternParts := splitOnChar '.' pat.data
  let domainParts := splitOnChar '.' domain.data
  let specificParts := (patternParts.filter (fun p => p ≠ ['*'])).length
  let totalParts := domainParts.length
  (141 * totalParts + 40 * specificParts) / (2 * totalParts)

/-!
Model of the max_results transform of LookupQuerySchema. parseIntJS
models the JavaScript parseInt with radix 10: leading whitespace is
skipped, an optional sign is read, then the longest leading digit run
is converted; if that run is empty the result is NaN, modelled as
none. Trailing characters after the digit run are ignored by parseInt.
-/
def parseIntJS (s : String) : Option Int :=
  let afterSpace := s.data.dropWhile (fun c => c.isWhitespace)
  let signAndRest : Int × List Char :=
    match afterSpace with
    | '-' :: rest => (-1, rest)
    | '+' :: rest => (1, rest)
    | l => (1, l)
  let digits := signAndRest.2.takeWhile (fun c => c.isDigit)
  if digits.isEmpty then none
  else
    some (signAndRest.1 *
      (Int.ofNat (digits.foldl (fun acc c => 10 * acc + (c.toNat - '0'.toNat)) 0)))

/-- Model of the zod transform for max_results: fall back to 10 when
the parsed number is NaN or outside 1..50, else keep it. -/
def maxResultsTransform (val : String) : Nat :=
  match parseIntJS val with
  | none => 10
  | some n => if n < 1 ∨ 50 < n then 10 else n.toNat

/-- Decimal integer string syntax: an optional sign followed by a
nonempty digit run and nothing else. Used to state what an input that
is an integer is. -/
def isIntegerString (s : String) : Bool :=
  match s.data with
  | [] => false
  | '-' :: rest => !rest.isEmpty && rest.all (fun c => c.isDigit)
  | '+' :: rest => !rest.isEmpty && rest.all (fun c => c.isDigit)
  | l => l.all (fun c => c.isDigit)

/-!
Data model: the query object produced by LookupQuerySchema, the row
shapes returned by the store queries of the lookup service, and the
response shapes of the lookup types module. Trust levels and
deployment types are strings at runtime (the zod transform splits a
comma separated string without further validation), so they are
modelled as strings.
-/

inductive MatchType where
  | exact
  | wildcard
  | category
  | aiSuggested
deriving DecidableEq

inductive Complexity where
  | simple
  | moderate
  | complex
deriving DecidableEq

structure LookupQuery where
  domain : String
  include_categories : Bool
  trust_levels : List String
  max_results : Nat
  deployment_types : List String
  user_context : Option String
deriving DecidableEq

structure ServerRow where
  server_id : String
  name : String
  description : String
  version : String
  deployment_type : String
  trust_level : String
  popularity_score : Int
  install_count : Int
  last_updated : String
  categories : String
  priority : Int
  auto_suggest : Int
deriving DecidableEq

structure WildcardRow extends ServerRow where
  domain_pattern : String
deriving DecidableEq

structure ConfigRow where
  config_id : String
  runtime : Option String
  transport : String
  installation_type : Option String
deriving DecidableEq

structure AuthRow where
  auth_type : String
  required : Int
  config_data : String
deriving DecidableEq

structure ToolRow where
  tool_name : String
  display_name : Option String
deriving DecidableEq

structure PrereqRow where
  prerequisite_type : String
  name : String
  version : Option String
deriving DecidableEq

structure ConfigurationSummary where
  config_id : String
  runtime : Option String
  transport : String
  quick_install : Bool
deriving DecidableEq

structure AuthInfo where
  required : Bool
  authType : Option String
  oauthReady : Bool
  methods : List String
deriving DecidableEq

structure ToolsInfo where
  count : Nat
  topTools : List String
deriving DecidableEq

structure PrereqInfo where
  complexity : Complexity
  estimatedMinutes : Nat
  requiresRestart : Bool
  summary : Option String
deriving DecidableEq

structure ServerMatch where
  server_id : String
  name : String
  description : String
  version : String
  deployment_type : String
  match_type : MatchType
  match_confidence : Nat
  priority : Int
  auto_suggest : Bool
  installation_complexity : Complexity
  estimated_setup_minutes : Nat
  requires_restart : Bool
  prerequisites_summary : Option String
  auth_required : Bool
  auth_type : Option String
  oauth_ready : Bool
  auth_methods : List String
  configurations : List ConfigurationSummary
  tools_count : Nat
  top_tools : List String
  resources_available : Bool
  trust_level : String
  popularity_score : Int
  install_count : Int
  last_updated : String
deriving DecidableEq

structure MatchMetadata where
  match_count : Nat
  search_time_ms : Int
  cache_hit : Bool
deriving DecidableEq

structure LookupResponse where
  domain : String
  match_metadata : MatchMetadata
  matches' : List ServerMatch
deriving DecidableEq

/-!
The store. The relational store is an external collaborator reached
through parameterized SQL; each distinct SQL statement of the lookup
service becomes one field returning either rows or a raised error.
The exact-stage statement filters mappings by the requested domain and
match type exact and servers by the trust and deployment filters; the
wildcard-stage statement filters by match type wildcard with the same
trust and deployment filters and a row limit; the enrichment
statements select by server id. Ordering clauses and the LIMIT 5 of
the tools statement are store behavior and live inside these fields.
-/
structure Store (ε : Type) where
  exactQuery : String → List String → List String → Except ε (List ServerRow)
  wildcardQuery : List String → List String → Nat → Except ε (List WildcardRow)
  configQuery : String → Except ε (List ConfigRow)
  authQuery : String → Except ε (List AuthRow)
  toolsQuery : String → Except ε (List ToolRow)
  prereqQuery : String → Except ε (List PrereqRow)
  resourceCountQuery : String → Except ε Int

structure CacheEntry where
  data : LookupResponse
  timestamp : Int

abbrev Cache : Type := String → Option CacheEntry

/-- The cache time-to-live of fifteen minutes in milliseconds. -/
def CACHE_TTL_MS : Int := 15 * 60 * 1000

/-- JavaScript array join on a separator. -/
def joinSep (sep : String) : List String → String
  | [] => ""
  | [s] => s
  | s :: rest => s ++ sep ++ joinSep sep rest

/-- Lexicographic comparison of character lists, the order used by the
JavaScript default array sort on strings. On ASCII strings, such as
the trust level and deployment type names, code points and UTF-16 code
units coincide. -/
def lexLeb : List Char → List Char → Bool
  | [], _ => true
  | _ :: _, [] => false
  | a :: as, b :: bs => if a = b then lexLeb as bs else decide (a < b)

/-- Lexicographic comparison of strings. -/
def strLeb (a b : String) : Bool :=
  lexLeb a.data b.data

/-- Insertion of a string into a sorted list of strings. -/
def insertSortedStr (s : String) : List String → List String
  | [] => [s]
  | t :: ts => if strLeb s t then s :: t :: ts else t :: insertSortedStr s ts

/-- JavaScript default array sort on strings: lexicographic order.
The model uses insertion sort, which agrees with the stable
implementation sort up to the order of equal strings. -/
def sortedStrings (l : List String) : List String :=
  l.foldr insertSortedStr []

/-- Model of getCacheKey. Array.prototype.sort mutates the two arrays
of the query in place, so the model returns the key together with the
query state after the call. -/
def getCacheKeyS (query : LookupQuery) : String × LookupQuery :=
  let sortedTrust := sortedStrings query.trust_levels
  let sortedDeploy := sortedStrings query.deployment_types
  (query.domain ++ ":" ++ joinSep "," sortedTrust ++ ":" ++
      joinSep "," sortedDeploy ++ ":" ++ Nat.repr query.max_results ++ ":" ++
      (if query.include_categories then "true" else "false"),
   { query with trust_levels := sortedTrust, deployment_types := sortedDeploy })

/-- The cache key alone. -/
def getCacheKey (query : LookupQuery) : String :=
  (getCacheKeyS query).1

/-- Sequential effectful map, modelling the await loops that build one
ServerMatch per row. -/
def mapExcept (f : α → Except ε β) : List α → Except ε (List β)
  | [] => .ok []
  | a :: as =>
    match f a with
    | .error e => .error e
    | .ok b =>
      match mapExcept f as with
      | .error e => .error e
      | .ok bs => .ok (b :: bs)

/-- Model of getConfigurationSummary. The JavaScript expression
row.runtime with the or-undefined fallback maps null and the empty
string to an absent runtime. -/
def getConfigurationSummary (st : Store ε) (serverId : String) :
    Except ε (List ConfigurationSummary) :=
  match st.configQuery serverId with
  | .error e => .error e
  | .ok rows =>
    .ok (rows.map (fun row =>
      { config_id := row.config_id,
        runtime :=
          match row.runtime with
          | some r => if r = "" then none else some r
          | none => none,
        transport := row.transport,
        quick_install :=
          row.installation_type == some "npm" ||
            row.installation_type == some "pip" }))

/-- Model of getAuthenticationSummary. -/
def getAuthenticationSummary (st : Store ε) (serverId : String) :
    Except ε AuthInfo :=
  match st.authQuery serverId with
  | .error e => .error e
  | .ok rows =>
    match rows with
    | [] => .ok { required := false, authType := none, oauthReady := false, methods := [] }
    | primaryAuth :: _ =>
      let allMethods := rows.map (fun r => r.auth_type)
      .ok { required := primaryAuth.required == 1,
            authType := some primaryAuth.auth_type,
            oauthReady := allMethods.contains "oauth2",
            methods := allMethods }

/-- Model of getToolsSummary. A display name that is null or empty
falls back to the tool name, following JavaScript truthiness. -/
def getToolsSummary (st : Store ε) (serverId : String) :
    Except ε ToolsInfo :=
  match st.toolsQuery serverId with
  | .error e => .error e
  | .ok rows =>
    .ok { count := rows.length,
          topTools := rows.map (fun r =>
            match r.display_name with
            | some d => if d = "" then r.tool_name else d
            | none => r.tool_name) }

/-- Model of getPrerequisitesSummary. -/
def getPrerequisitesSummary (st : Store ε) (serverId : String) :
    Except ε PrereqInfo :=
  match st.prereqQuery serverId with
  | .error e => .error e
  | .ok rows =>
    if rows.length = 0 then
      .ok { complexity := .simple, estimatedMinutes := 5,
            requiresRestart := false, summary := none }
    else
      let complexity : Complexity :=
        if rows.length > 3 then .complex
        else if rows.length > 1 then .moderate
        else .simple
      let estimatedMinutes := min (rows.length * 5) 30
      let requiresRestart := rows.any (fun r => r.prerequisite_type == "runtime")
      let summary := joinSep ", " (rows.map (fun r =>
        r.name ++
          (match r.version with
           | some v => if v = "" then "" else " " ++ v
           | none => "")))
      .ok { complexity := complexity, estimatedMinutes := estimatedMinutes,
            requiresRestart := requiresRestart,
            summary := if summary = "" then none else some summary }

/-- Model of hasResources. -/
def hasResources (st : Store ε) (serverId : String) : Except ε Bool :=
  match st.resourceCountQuery serverId with
  | .error e => .error e
  | .ok result => .ok (decide (0 < result))

/-- Model of buildServerMatch: the five enrichment queries run in
order and their summaries are assembled into one ServerMatch. -/
def buildServerMatch (st : Store ε) (serverRow : ServerRow)
    (matchType : MatchType) (confidence : Nat) : Except ε ServerMatch :=
  match getConfigurationSummary st serverRow.server_id with
  | .error e => .error e
  | .ok configs =>
  match getAuthenticationSummary st serverRow.server_id with
  | .error e => .error e
  | .ok authInfo =>
  match getToolsSummary st serverRow.server_id with
  | .error e => .error e
  | .ok toolsInfo =>
  match getPrerequisitesSummary st serverRow.server_id with
  | .error e => .error e
  | .ok prereqInfo =>
  match hasResources st serverRow.server_id with
  | .error e => .error e
  | .ok resourcesAvailable =>
    .ok { server_id := serverRow.server_id,
          name := serverRow.name,
          description := serverRow.description,
          version := serverRow.version,
          deployment_type := serverRow.deployment_type,
          match_type := matchType,
          match_confidence := confidence,
          priority := serverRow.priority,
          auto_suggest := serverRow.auto_suggest == 1,
          installation_complexity := prereqInfo.complexity,
          estimated_setup_minutes := prereqInfo.estimatedMinutes,
          requires_restart := prereqInfo.requiresRestart,
          prerequisites_summary := prereqInfo.summary,
          auth_required := authInfo.required,
          auth_type := authInfo.authType,
          oauth_ready := authInfo.oauthReady,
          auth_methods := authInfo.methods,
          configurations := configs,
          tools_count := toolsInfo.count,
          top_tools := toolsInfo.topTools,
          resources_available := resourcesAvailable,
          trust_level := serverRow.trust_level,
          popularity_score := serverRow.popularity_score,
          install_count := serverRow.install_count,
          last_updated := serverRow.last_updated }

/-- Model of findExactDomainMatches: every row of the exact-stage
query yields a match of type exact at fixed confidence 100. -/
def findExactDomainMatches (st : Store ε) (query : LookupQuery) :
    Except ε (List ServerMatch) :=
  match st.exactQuery query.domain query.trust_levels query.deployment_types with
  | .error e => .error e
  | .ok rows => mapExcept (fun row => buildServerMatch st row .exact 100) rows

/-- Model of findWildcardMatches: candidate rows are limited to the
remaining budget at the store level, then filtered in memory by the
wildcard matcher, and each surviving row is scored by the confidence
formula. -/
def findWildcardMatches (st : Store ε) (query : LookupQuery)
    (currentCount : Nat) : Except ε (List ServerMatch) :=
  if query.max_results ≤ currentCount then .ok []
  else
    let limit := query.max_results - currentCount
    match st.wildcardQuery query.trust_levels query.deployment_types limit with
    | .error e => .error e
    | .ok rows =>
      mapExcept
        (fun row => buildServerMatch st row.toServerRow .wildcard
          (calculateWildcardConfidence query.domain row.domain_pattern))
        (rows.filter (fun row => matchesWildcard query.domain row.domain_pattern))

/-- Model of findCategoryMatches: an explicit no-op returning the
empty list. -/
def findCategoryMatches (st : Store ε) (query : LookupQuery)
    (currentCount : Nat) : Except ε (List ServerMatch) :=
  if query.max_results ≤ currentCount then .ok [] else .ok []

/-- The three-stage pipeline of lookupServers: exact, then wildcard if
the budget is not yet filled, then category if requested and budget
remains, then truncation to max_results. -/
def lookupPipeline (st : Store ε) (query : LookupQuery) :
    Except ε (List ServerMatch) :=
  match findExactDomainMatches st query with
  | .error e => .error e
  | .ok m1 =>
    let step2 : Except ε (List ServerMatch) :=
      if m1.length < query.max_results then
        (match findWildcardMatches st query m1.length with
         | .error e => .error e
         | .ok w => .ok (m1 ++ w))
      else .ok m1
    match step2 with
    | .error e => .error e
    | .ok m2 =>
      let step3 : Except ε (List ServerMatch) :=
        if query.include_categories && decide (m2.length < query.max_results) then
          (match findCategoryMatches st query m2.length with
           | .error e => .error e
           | .ok cm => .ok (m2 ++ cm))
        else .ok m2
      match step3 with
      | .error e => .error e
      | .ok m3 => .ok (m3.take query.max_results)

/-- The cache-miss path of lookupServers: run the pipeline, assemble
the response, write it to the cache keyed by the cache key with the
current timestamp, and return it. A raised store error leaves the
cache untouched. -/
def lookupMiss (st : Store ε) (query : LookupQuery) (cache : Cache)
    (cacheKey : String) (tStart tEnd : Int) :
    Except ε LookupResponse × Cache × LookupQuery :=
  match lookupPipeline st query with
  | .error e => (.error e, cache, query)
  | .ok ms =>
    let searchTimeMs := tEnd - tStart
    let response : LookupResponse :=
      { domain := query.domain,
        match_metadata :=
          { match_count := ms.length,
            search_time_ms := searchTimeMs,
            cache_hit := false },
        matches' := ms }
    (.ok response,
     fun k => if k = cacheKey then some { data := response, timestamp := tEnd } else cache k,
     query)

/-- Model of lookupServers. Clock reads are abstracted by the call
interval: tStart is the startTime read and the cache-freshness read,
tEnd the read used for search_time_ms and the cache write timestamp.
The third component of the result is the caller-visible query object
after the call, reflecting the in-place sorts of getCacheKey. -/
def lookupServers (st : Store ε) (query : LookupQuery) (cache : Cache)
    (tStart tEnd : Int) : Except ε LookupResponse × Cache × LookupQuery :=
  let keyAndQuery := getCacheKeyS query
  match cache keyAndQuery.1 with
  | some cached =>
    if tStart - cached.timestamp < CACHE_TTL_MS then
      (.ok { cached.data with
             match_metadata :=
               { cached.data.match_metadata with
                 cache_hit := true,
                 search_time_ms := tEnd - tStart } },
       cache, keyAndQuery.2)
    else lookupMiss st keyAndQuery.2 cache keyAndQuery.1 tStart tEnd
  | none => lookupMiss st keyAndQuery.2 cache keyAndQuery.1 tStart tEnd

/-!
Concrete fixtures used by witnesses and counterexamples: a store with
no rows, a store holding one exact mapping for github.com and one
wildcard mapping, a store whose exact-stage query raises, a default
query, and the empty cache.
-/

instance {ε α : Type} [DecidableEq ε] [DecidableEq α] : DecidableEq (Except ε α) :=
  fun a b =>
    match a, b with
    | .ok x, .ok y =>
      if h : x = y then .isTrue (by rw [h])
      else .isFalse (fun hh => h (Except.ok.inj hh))
    | .error e, .error f =>
      if h : e = f then .isTrue (by rw [h])
      else .isFalse (fun hh => h (Except.error.inj hh))
    | .ok _, .error _ => .isFalse (fun hh => Except.noConfusion hh)
    | .error _, .ok _ => .isFalse (fun hh => Except.noConfusion hh)

def trivStore : Store String :=
  { exactQuery := fun _ _ _ => .ok [],
    wildcardQuery := fun _ _ _ => .ok [],
    configQuery := fun _ => .ok [],
    authQuery := fun _ => .ok [],
    toolsQuery := fun _ => .ok [],
    prereqQuery := fun _ => .ok [],
    resourceCountQuery := fun _ => .ok 0 }

def q0 : LookupQuery :=
  { domain := "github.com",
    include_categories := false,
    trust_levels := ["verified", "community"],
    max_results := 10,
    deployment_types := ["local", "remote", "hybrid"],
    user_context := none }

def cEmpty : Cache := fun _ => none

def rowA : ServerRow :=
  { server_id := "github-mcp", name := "GitHub MCP", description := "GitHub tools",
    version := "1.0.0", deployment_type := "local", trust_level := "verified",
    popularity_score := 5, install_count := 10, last_updated := "2024-01-01",
    categories := "[]", priority := 1, auto_suggest := 1 }

def rowB : WildcardRow :=
  { server_id := "com-mcp", name := "Com MCP", description := "generic",
    version := "1.0.0", deployment_type := "local", trust_level := "verified",
    popularity_score := 3, install_count := 5, last_updated := "2024-01-01",
    categories := "[]", priority := 2, auto_suggest := 0,
    domain_pattern := "*.com" }

def s2 : Store String :=
  { exactQuery := fun d _ _ => if d = "github.com" then .ok [rowA] else .ok [],
    wildcardQuery := fun _ _ _ => .ok [rowB],
    configQuery := fun _ => .ok [],
    authQuery := fun _ => .ok [],
    toolsQuery := fun _ => .ok [],
    prereqQuery := fun _ => .ok [],
    resourceCountQuery := fun _ => .ok 0 }

def errStore : Store String :=
  { exactQuery := fun _ _ _ => .error "store unavailable",
    wildcardQuery := fun _ _ _ => .ok [],
    configQuery := fun _ => .ok [],
    authQuery := fun _ => .ok [],
    toolsQuery := fun _ => .ok [],
    prereqQuery := fun _ => .ok [],
    resourceCountQuery := fun _ => .ok 0 }


/-!
Helper lemmas about the effectful combinators.
-/

theorem mapExcept_ok_mem {α β ε : Type} {f : α → Except ε β} {P : β → Prop}
    (hf : ∀ a b, f a = .ok b → P b) :
    ∀ {l : List α} {bs : List β}, mapExcept f l = .ok bs → ∀ b ∈ bs, P b := by
  intro l
  induction l with
  | nil =>
    intro bs h b hb
    unfold mapExcept at h
    cases h
    simp at hb
  | cons a as ih =>
    intro bs h b hb
    unfold mapExcept at h
    cases hfa : f a with
    | error e => rw [hfa] at h; exact Except.noConfusion h
    | ok bval =>
      rw [hfa] at h
      cases hrec : mapExcept f as with
      | error e => rw [hrec] at h; exact Except.noConfusion h
      | ok bs' =>
        rw [hrec] at h
        cases h
        rcases List.mem_cons.mp hb with hb | hb
        · exact hb ▸ hf a bval hfa
        · exact ih hrec b hb

theorem buildServerMatch_ok {ε : Type} {st : Store ε} {row : ServerRow}
    {mt : MatchType} {conf : Nat} {m : ServerMatch}
    (h : buildServerMatch st row mt conf = .ok m) :
    m.match_type = mt ∧ m.match_confidence = conf := by
  unfold buildServerMatch at h
  repeat' split at h
  all_goals first
    | exact Except.noConfusion h
    | (cases h; exact ⟨rfl, rfl⟩)

/-- C8: for a server with n prerequisite rows, the prerequisites
summary is the fixed simple record when n is zero, else complexity is
complex for n above 3, moderate for n equal to 2 or 3 and simple
otherwise, the estimated minutes are min of 5 n and 30, and a restart
is required exactly when some row has prerequisite type runtime. -/
theorem c8_prerequisites_summary {ε : Type} (st : Store ε) (serverId : String)
    (rows : List PrereqRow) (info : PrereqInfo)
    (hq : st.prereqQuery serverId = .ok rows)
    (hres : getPrerequisitesSummary st serverId = .ok info) :
    (rows.length = 0 →
      info = { complexity := .simple, estimatedMinutes := 5,
               requiresRestart := false, summary := none }) ∧
    (0 < rows.length →
      info.complexity =
        (if 3 < rows.length then Complexity.complex
         else if rows.length = 2 ∨ rows.length = 3 then Complexity.moderate
         else Complexity.simple) ∧
      info.estimatedMinutes = min (rows.length * 5) 30 ∧
      (info.requiresRestart = true ↔ ∃ r ∈ rows, r.prerequisite_type = "runtime")) := by
  simp only [getPrerequisitesSummary, hq] at hres
  by_cases h0 : rows.length = 0
  · rw [if_pos h0] at hres
    cases hres
    exact ⟨fun _ => rfl, fun hpos => absurd h0 (by omega)⟩
  · rw [if_neg h0] at hres
    cases hres
    refine ⟨fun hz => absurd hz h0, fun _ => ⟨?_, rfl, ?_⟩⟩
    · by_cases h3 : 3 < rows.length
      · simp [h3, show rows.length > 3 from h3]
      · by_cases h1 : rows.length > 1
        · simp [h3, h1, show rows.length = 2 ∨ rows.length = 3 by omega]
        · simp [h3, h1, show ¬(rows.length = 2 ∨ rows.length = 3) by omega]
    · simp [List.any_eq_true, beq_iff_eq]

def prRows : List PrereqRow :=
  [{ prerequisite_type := "runtime", name := "node", version := some "18" },
   { prerequisite_type := "credential", name := "api key", version := none }]

def prStore : Store String :=
  { trivStore with prereqQuery := fun _ => .ok prRows }

/-- C8 witness: the theorem applied to a concrete store holding two
prerequisite rows, one of type runtime. -/
theorem c8_witness :
    (prRows.length = 0 →
      ({ complexity := .moderate, estimatedMinutes := 10,
         requiresRestart := true, summary := some "node 18, api key" } : PrereqInfo) =
        { complexity := .simple, estimatedMinutes := 5,
          requiresRestart := false, summary := none }) ∧
    (0 < prRows.length →
      ({ complexity := .moderate, estimatedMinutes := 10,
         requiresRestart := true, summary := some "node 18, api key" } : PrereqInfo).complexity =
        (if 3 < prRows.length then Complexity.complex
         else if prRows.length = 2 ∨ prRows.length = 3 then Complexity.moderate
         else Complexity.simple) ∧
      ({ complexity := .moderate, estimatedMinutes := 10,
         requiresRestart := true, summary := some "node 18, api key" } : PrereqInfo).estimatedMinutes =
        min (prRows.length * 5) 30 ∧
      (({ complexity := .moderate, estimatedMinutes := 10,
          requiresRestart := true, summary := some "node 18, api key" } : PrereqInfo).requiresRestart = true ↔
        ∃ r ∈ prRows, r.prerequisite_type = "runtime")) :=
  c8_prerequisites_summary prStore "github-mcp" prRows
    { complexity := .moderate, estimatedMinutes := 10,
      requiresRestart := true, summary := some "node 18, api key" }
    rfl (by decide)

/-- C9 counterexample: the input string 12abc is not an integer, yet
the transform returns 12 rather than the claimed fallback 10, because
parseInt ignores trailing non-digit characters. -/
theorem c9_counterexample :
    isIntegerString "12abc" = false ∧
    maxResultsTransform "12abc" = 12 ∧ maxResultsTransform "12abc" ≠ 10 := by
  decide

/-- C9 amended: the transform applies the parseInt semantics. A string
whose parseInt value is NaN yields 10; a parsed value outside 1..50
yields 10; a parsed value inside 1..50 is kept, including for strings
with trailing garbage after the leading integer; and every canonical
decimal string of an integer in 1..50 maps to that integer. -/
theorem c9_max_results_parse :
    (∀ s : String, parseIntJS s = none → maxResultsTransform s = 10) ∧
    (∀ s : String, ∀ n : Int, parseIntJS s = some n → (n < 1 ∨ 50 < n) →
      maxResultsTransform s = 10) ∧
    (∀ s : String, ∀ n : Int, parseIntJS s = some n → 1 ≤ n → n ≤ 50 →
      (maxResultsTransform s : Int) = n) ∧
    (∀ n : Nat, n ≤ 50 → 1 ≤ n → maxResultsTransform (Nat.repr n) = n) := by
  refine ⟨?_, ?_, ?_, by decide⟩
  · intro s h
    simp only [maxResultsTransform, h]
  · intro s n h hout
    simp only [maxResultsTransform, h]
    rw [if_pos hout]
  · intro s n h h1 h50
    simp only [maxResultsTransform, h]
    rw [if_neg (by omega)]
    exact Int.toNat_of_nonneg (by omega)

/-- C9 witness: the amended theorem applied to the canonical string of
7 and to the parse clause at 7. -/
theorem c9_witness : (maxResultsTransform "7" : Int) = 7 :=
  c9_max_results_parse.2.2.1 "7" 7 (by decide) (by decide) (by decide)

/-!
C4: the wildcard confidence formula.
-/

theorem splitOnChar_ne_nil (sep : Char) (l : List Char) : splitOnChar sep l ≠ [] := by
  induction l with
  | nil => simp [splitOnChar]
  | cons c cs ih =>
    simp only [splitOnChar]
    split
    · simp
    · split
      · simp
      · simp

def dom41 : String := "a.a.a.a.a.a.a.a.a.a.a.a.a.a.a.a.a.a.a.a.a.a.a.a.a.a.a.a.a.a.a.a.a.a.a.a.a.a.a.a.a"

def pat42 : String := "a.a.a.a.a.a.a.a.a.a.a.a.a.a.a.a.a.a.a.a.a.a.a.a.a.a.a.a.a.a.a.a.a.a.a.a.a.a.a.a.a.a"

/-- C4 counterexample: a pattern with 42 specific segments against a
domain with 41 segments has specificity ratio above 1, yet the
confidence is exactly 90, refuting the claim that a ratio above 1
always makes the confidence exceed 90. -/
theorem c4_counterexample :
    ((splitOnChar '.' dom41.data).length <
      ((splitOnChar '.' pat42.data).filter (fun p => p ≠ ['*'])).length) ∧
    calculateWildcardConfidence dom41 pat42 = 90 ∧
    ¬ 90 < calculateWildcardConfidence dom41 pat42 := by
  decide

/-- C4 amended: with s the number of pattern segments that are not the
star token and t the number of domain segments, the confidence equals
round(70 + s over t times 20) with rounding half up; whenever the
ratio exceeds 1 the confidence is at least 90 (not necessarily above
90); and the unclamped value can exceed 100. -/
theorem c4_wildcard_confidence (domain pat : String) :
    ((calculateWildcardConfidence domain pat : ℤ) =
      round ((70 : ℚ) +
        (((splitOnChar '.' pat.data).filter (fun p => p ≠ ['*'])).length : ℚ) /
          ((splitOnChar '.' domain.data).length : ℚ) * 20)) ∧
    ((splitOnChar '.' domain.data).length <
        ((splitOnChar '.' pat.data).filter (fun p => p ≠ ['*'])).length →
      90 ≤ calculateWildcardConfidence domain pat) ∧
    100 < calculateWildcardConfidence "a" "a.a.a.a.a" := by
  have hconf : ∀ dd pp : String, calculateWildcardConfidence dd pp =
      (141 * (splitOnChar '.' dd.data).length +
        40 * ((splitOnChar '.' pp.data).filter (fun p => p ≠ ['*'])).length) /
        (2 * (splitOnChar '.' dd.data).length) := fun _ _ => rfl
  set s := ((splitOnChar '.' pat.data).filter (fun p => p ≠ ['*'])).length with hs
  set t := (splitOnChar '.' domain.data).length with ht
  have ht1 : 0 < t := by
    rw [ht]
    exact List.length_pos.mpr (splitOnChar_ne_nil _ _)
  refine ⟨?_, ?_, by decide⟩
  · rw [hconf domain pat, round_eq]
    have htQ : ((t : ℚ)) ≠ 0 := by
      exact_mod_cast Nat.pos_iff_ne_zero.mp ht1
    have hval : (70 : ℚ) + (s : ℚ) / (t : ℚ) * 20 + 1 / 2 =
        ((141 * t + 40 * s : ℕ) : ℚ) / ((2 * t : ℕ) : ℚ) := by
      push_cast
      field_simp
      ring
    rw [hval]
    have hB : (0 : ℚ) < ((2 * t : ℕ) : ℚ) := by
      have : 0 < 2 * t := by omega
      exact_mod_cast this
    symm
    rw [Int.floor_eq_iff]
    constructor
    · rw [le_div_iff₀ hB]
      have := Nat.div_mul_le_self (141 * t + 40 * s) (2 * t)
      exact_mod_cast this
    · rw [div_lt_iff₀ hB]
      have hmod : (141 * t + 40 * s) % (2 * t) < 2 * t := Nat.mod_lt _ (by omega)
      have hdm := Nat.div_add_mod (141 * t + 40 * s) (2 * t)
      have : 141 * t + 40 * s <
          ((141 * t + 40 * s) / (2 * t) + 1) * (2 * t) := by
        calc 141 * t + 40 * s
            = 2 * t * ((141 * t + 40 * s) / (2 * t)) + (141 * t + 40 * s) % (2 * t) := hdm.symm
          _ < 2 * t * ((141 * t + 40 * s) / (2 * t)) + 2 * t := by omega
          _ = ((141 * t + 40 * s) / (2 * t) + 1) * (2 * t) := by ring
      exact_mod_cast this
  · intro hst
    rw [hconf domain pat]
    rw [Nat.le_div_iff_mul_le (by omega : 0 < 2 * t)]
    omega

/-- C4 witness: the amended theorem applied to a pattern with two
specific segments against a one segment domain. -/
theorem c4_witness : 90 ≤ calculateWildcardConfidence "a" "a.b" :=
  (c4_wildcard_confidence "a" "a.b").2.1 (by decide)

/-!
C2: the exact stage and the full response.
-/

/-- C2 counterexample: a store holding one exact mapping for
github.com that passes the filters together with one wildcard mapping
for star dot com. The response for github.com contains a wildcard
match besides the exact one, so not every match of the response has
confidence 100 and type exact. -/
theorem c2_counterexample :
    s2.exactQuery "github.com" (sortedStrings q0.trust_levels)
        (sortedStrings q0.deployment_types) = .ok [rowA] ∧
    ([rowA] : List ServerRow) ≠ [] ∧
    ((lookupServers s2 q0 cEmpty 0 1).1.toOption.map
      (fun R => R.matches'.any
        (fun m => !(m.match_confidence == 100 && m.match_type == MatchType.exact)))) =
      some true := by
  decide

/-- C2 amended: every match produced by the exact stage has
confidence 100 and match type exact; matches appended to the response
by the later stages may have other types and confidences. -/
theorem c2_exact_stage_confidence {ε : Type} (st : Store ε) (q : LookupQuery)
    (ms : List ServerMatch) (h : findExactDomainMatches st q = .ok ms) :
    ∀ m ∈ ms, m.match_confidence = 100 ∧ m.match_type = MatchType.exact := by
  unfold findExactDomainMatches at h
  cases hq : st.exactQuery q.domain q.trust_levels q.deployment_types with
  | error e => rw [hq] at h; exact Except.noConfusion h
  | ok rows =>
    rw [hq] at h
    exact mapExcept_ok_mem
      (fun a b hab => ⟨(buildServerMatch_ok hab).2, (buildServerMatch_ok hab).1⟩) h

def mA : ServerMatch :=
  { server_id := "github-mcp", name := "GitHub MCP", description := "GitHub tools",
    version := "1.0.0", deployment_type := "local",
    match_type := .exact, match_confidence := 100, priority := 1,
    auto_suggest := true, installation_complexity := .simple,
    estimated_setup_minutes := 5, requires_restart := false,
    prerequisites_summary := none, auth_required := false, auth_type := none,
    oauth_ready := false, auth_methods := [], configurations := [],
    tools_count := 0, top_tools := [], resources_available := false,
    trust_level := "verified", popularity_score := 5, install_count := 10,
    last_updated := "2024-01-01" }

/-- C2 witness: the amended theorem applied to the concrete store s2,
whose exact stage yields exactly the match built from rowA. -/
theorem c2_witness :
    mA.match_confidence = 100 ∧ mA.match_type = MatchType.exact :=
  c2_exact_stage_confidence s2 q0 [mA] (by decide) mA (List.mem_cons_self mA [])

/-!
Dissection lemmas for the facade: how lookupServers reduces on a hit,
on a miss, and what the miss path returns for a failing or successful
pipeline.
-/

theorem lookupServers_hit {ε : Type} {st : Store ε} {q : LookupQuery} {c : Cache}
    {ts te : Int} {entry : CacheEntry}
    (hc : c (getCacheKeyS q).1 = some entry)
    (httl : ts - entry.timestamp < CACHE_TTL_MS) :
    lookupServers st q c ts te =
      (.ok { entry.data with
             match_metadata :=
               { entry.data.match_metadata with
                 cache_hit := true, search_time_ms := te - ts } },
       c, (getCacheKeyS q).2) := by
  simp only [lookupServers, hc]
  rw [if_pos httl]

theorem lookupServers_stale {ε : Type} {st : Store ε} {q : LookupQuery} {c : Cache}
    {ts te : Int} {entry : CacheEntry}
    (hc : c (getCacheKeyS q).1 = some entry)
    (httl : ¬ ts - entry.timestamp < CACHE_TTL_MS) :
    lookupServers st q c ts te =
      lookupMiss st (getCacheKeyS q).2 c (getCacheKeyS q).1 ts te := by
  simp only [lookupServers, hc]
  rw [if_neg httl]

theorem lookupServers_miss {ε : Type} {st : Store ε} {q : LookupQuery} {c : Cache}
    {ts te : Int}
    (hc : c (getCacheKeyS q).1 = none) :
    lookupServers st q c ts te =
      lookupMiss st (getCacheKeyS q).2 c (getCacheKeyS q).1 ts te := by
  simp only [lookupServers, hc]

theorem lookupMiss_error {ε : Type} {st : Store ε} {q : LookupQuery} {c : Cache}
    {key : String} {ts te : Int} {e : ε}
    (hp : lookupPipeline st q = .error e) :
    lookupMiss st q c key ts te = (.error e, c, q) := by
  simp only [lookupMiss, hp]

theorem lookupMiss_ok {ε : Type} {st : Store ε} {q : LookupQuery} {c : Cache}
    {key : String} {ts te : Int} {ms : List ServerMatch}
    (hp : lookupPipeline st q = .ok ms) :
    lookupMiss st q c key ts te =
      (.ok { domain := q.domain,
             match_metadata :=
               { match_count := ms.length, search_time_ms := te - ts, cache_hit := false },
             matches' := ms },
       fun k => if k = key then
           some { data :=
                    { domain := q.domain,
                      match_metadata :=
                        { match_count := ms.length, search_time_ms := te - ts,
                          cache_hit := false },
                      matches' := ms },
                  timestamp := te }
         else c k,
       q) := by
  simp only [lookupMiss, hp]

theorem findCategoryMatches_eq {ε : Type} (st : Store ε) (q : LookupQuery) (n : Nat) :
    findCategoryMatches st q n = .ok [] := by
  unfold findCategoryMatches
  split <;> rfl

/-- C7: a raised store error propagates out of lookupServers and
leaves the cache unchanged. The first clause states that any failing
call returns the cache it was given; the second that a failing exact
stage query propagates its error on a cache miss; the third that a
failing enrichment query for the first matched row propagates its
error on a cache miss. -/
theorem c7_error_propagation {ε : Type} (st : Store ε) (q : LookupQuery)
    (c : Cache) (ts te : Int) :
    (∀ e : ε, (lookupServers st q c ts te).1 = .error e →
      (lookupServers st q c ts te).2.1 = c) ∧
    (∀ e : ε, c (getCacheKey q) = none →
      st.exactQuery q.domain (sortedStrings q.trust_levels)
          (sortedStrings q.deployment_types) = .error e →
      (lookupServers st q c ts te).1 = .error e) ∧
    (∀ (e : ε) (row : ServerRow) (rest : List ServerRow),
      c (getCacheKey q) = none →
      st.exactQuery q.domain (sortedStrings q.trust_levels)
          (sortedStrings q.deployment_types) = .ok (row :: rest) →
      st.configQuery row.server_id = .error e →
      (lookupServers st q c ts te).1 = .error e) := by
  have hexact : ∀ res, st.exactQuery q.domain (sortedStrings q.trust_levels)
        (sortedStrings q.deployment_types) = res →
      st.exactQuery (getCacheKeyS q).2.domain (getCacheKeyS q).2.trust_levels
        (getCacheKeyS q).2.deployment_types = res := by
    intro res h
    exact h
  refine ⟨?_, ?_, ?_⟩
  · intro e h
    cases hc : c (getCacheKeyS q).1 with
    | some entry =>
      by_cases httl : ts - entry.timestamp < CACHE_TTL_MS
      · rw [lookupServers_hit hc httl] at h
        exact Except.noConfusion h
      · rw [lookupServers_stale hc httl] at h ⊢
        cases hp : lookupPipeline st (getCacheKeyS q).2 with
        | error e2 => rw [lookupMiss_error hp]
        | ok ms => rw [lookupMiss_ok hp] at h; exact Except.noConfusion h
    | none =>
      rw [lookupServers_miss hc] at h ⊢
      cases hp : lookupPipeline st (getCacheKeyS q).2 with
      | error e2 => rw [lookupMiss_error hp]
      | ok ms => rw [lookupMiss_ok hp] at h; exact Except.noConfusion h
  · intro e hc hq
    rw [lookupServers_miss hc]
    have hp : lookupPipeline st (getCacheKeyS q).2 = .error e := by
      unfold lookupPipeline findExactDomainMatches
      rw [hexact _ hq]
    rw [lookupMiss_error hp]
  · intro e row rest hc hq hcfg
    rw [lookupServers_miss hc]
    have hp : lookupPipeline st (getCacheKeyS q).2 = .error e := by
      unfold lookupPipeline findExactDomainMatches
      rw [hexact _ hq]
      simp only [mapExcept, buildServerMatch, getConfigurationSummary, hcfg]
    rw [lookupMiss_error hp]

/-- C7 witness: the theorem applied to a store whose exact stage query
raises; the call fails with that error and returns the cache
unchanged. -/
theorem c7_witness :
    (lookupServers errStore q0 cEmpty 0 1).1 = .error "store unavailable" ∧
    (lookupServers errStore q0 cEmpty 0 1).2.1 = cEmpty := by
  have h := (c7_error_propagation errStore q0 cEmpty 0 1).2.1 "store unavailable" rfl rfl
  exact ⟨h, (c7_error_propagation errStore q0 cEmpty 0 1).1 "store unavailable" h⟩

/-- C3: on a cache miss, the successful response respects the result
budget: the match list is the stage-ordered concatenation of the
exact, wildcard and category stage results truncated to max_results,
and in particular its length never exceeds max_results. -/
theorem c3_budget_bound {ε : Type} (st : Store ε) (q : LookupQuery) (c : Cache)
    (ts te : Int) (R : LookupResponse)
    (hmax1 : 1 ≤ q.max_results) (hmax50 : q.max_results ≤ 50)
    (hmiss : c (getCacheKey q) = none)
    (hres : (lookupServers st q c ts te).1 = .ok R) :
    R.matches'.length ≤ q.max_results ∧
    ∃ ex w cat : List ServerMatch,
      findExactDomainMatches st (getCacheKeyS q).2 = .ok ex ∧
      (if ex.length < q.max_results
        then findWildcardMatches st (getCacheKeyS q).2 ex.length = .ok w
        else w = []) ∧
      cat = [] ∧
      R.matches' = (ex ++ w ++ cat).take q.max_results := by
  rw [lookupServers_miss hmiss] at hres
  cases hp : lookupPipeline st (getCacheKeyS q).2 with
  | error e => rw [lookupMiss_error hp] at hres; exact Except.noConfusion hres
  | ok ms =>
    rw [lookupMiss_ok hp] at hres
    have hres2 : (Except.ok
        { domain := (getCacheKeyS q).2.domain,
          match_metadata :=
            { match_count := ms.length, search_time_ms := te - ts, cache_hit := false },
          matches' := ms } : Except ε LookupResponse) = Except.ok R := hres
    have hRm : R.matches' = ms := by cases hres2; rfl
    unfold lookupPipeline at hp
    cases he : findExactDomainMatches st (getCacheKeyS q).2 with
    | error e => rw [he] at hp; exact Except.noConfusion hp
    | ok m1 =>
      simp only [he] at hp
      rw [show (getCacheKeyS q).2.max_results = q.max_results from rfl] at hp
      by_cases hlt : m1.length < q.max_results
      · rw [if_pos hlt] at hp
        cases hwc : findWildcardMatches st (getCacheKeyS q).2 m1.length with
        | error e =>
          simp only [hwc] at hp
          exact Except.noConfusion hp
        | ok w =>
          simp only [hwc, findCategoryMatches_eq] at hp
          have hstep3 :
              (if ((getCacheKeyS q).2.include_categories &&
                    decide ((m1 ++ w).length < q.max_results)) = true then
                 (Except.ok (m1 ++ w ++ []) : Except ε (List ServerMatch))
               else Except.ok (m1 ++ w)) = Except.ok (m1 ++ w) := by
            split <;> simp
          rw [hstep3] at hp
          have hp2 : (Except.ok (List.take q.max_results (m1 ++ w)) :
              Except ε (List ServerMatch)) = Except.ok ms := hp
          cases hp2
          refine ⟨by rw [hRm]; exact List.length_take_le _ _,
            m1, w, [], rfl, by rw [if_pos hlt]; exact hwc, rfl, by rw [hRm]; simp⟩
      · rw [if_neg hlt] at hp
        simp only [findCategoryMatches_eq] at hp
        have hstep3 :
            (if ((getCacheKeyS q).2.include_categories &&
                  decide (m1.length < q.max_results)) = true then
               (Except.ok (m1 ++ []) : Except ε (List ServerMatch))
             else Except.ok m1) = Except.ok m1 := by
          split <;> simp
        rw [hstep3] at hp
        have hp2 : (Except.ok (List.take q.max_results m1) :
            Except ε (List ServerMatch)) = Except.ok ms := hp
        cases hp2
        refine ⟨by rw [hRm]; exact List.length_take_le _ _,
          m1, [], [], rfl, by rw [if_neg hlt], rfl, by rw [hRm]; simp⟩

/-- C3 witness: the theorem applied to the empty store, where the
response has no matches and the budget bound holds trivially. -/
theorem c3_witness :
    ({ domain := "github.com",
       match_metadata := { match_count := 0, search_time_ms := 5, cache_hit := false },
       matches' := [] } : LookupResponse).matches'.length ≤ q0.max_results ∧
    ∃ ex w cat : List ServerMatch,
      findExactDomainMatches trivStore (getCacheKeyS q0).2 = .ok ex ∧
      (if ex.length < q0.max_results
        then findWildcardMatches trivStore (getCacheKeyS q0).2 ex.length = .ok w
        else w = []) ∧
      cat = [] ∧
      ({ domain := "github.com",
         match_metadata := { match_count := 0, search_time_ms := 5, cache_hit := false },
         matches' := [] } : LookupResponse).matches' = (ex ++ w ++ cat).take q0.max_results :=
  c3_budget_bound trivStore q0 cEmpty 0 5
    { domain := "github.com",
      match_metadata := { match_count := 0, search_time_ms := 5, cache_hit := false },
      matches' := [] }
    (by decide) (by decide) rfl (by decide)

/-- C1: a second call with the identical query within the TTL window
is served from the entry written by the first call: the domain, the
matches and the match count are identical, cache_hit is overridden to
true, and the response differs from the first one at most in
cache_hit and search_time_ms. -/
theorem c1_cache_hit_idempotent {ε : Type} (st : Store ε) (q : LookupQuery)
    (c : Cache) (t1s t1e t2s t2e : Int) (R1 : LookupResponse)
    (hmiss : c (getCacheKey q) = none)
    (h1 : (lookupServers st q c t1s t1e).1 = .ok R1)
    (httl : t2s - t1e < CACHE_TTL_MS) :
    ∃ R2 : LookupResponse,
      (lookupServers st q (lookupServers st q c t1s t1e).2.1 t2s t2e).1 = .ok R2 ∧
      R2.domain = R1.domain ∧
      R2.matches' = R1.matches' ∧
      R2.match_metadata.match_count = R1.match_metadata.match_count ∧
      R2.match_metadata.cache_hit = true ∧
      R2 = { R1 with
             match_metadata :=
               { R1.match_metadata with
                 cache_hit := true, search_time_ms := t2e - t2s } } := by
  rw [lookupServers_miss hmiss] at h1 ⊢
  cases hp : lookupPipeline st (getCacheKeyS q).2 with
  | error e => rw [lookupMiss_error hp] at h1; exact Except.noConfusion h1
  | ok ms =>
    rw [lookupMiss_ok hp] at h1 ⊢
    have h1' : (Except.ok
        { domain := (getCacheKeyS q).2.domain,
          match_metadata :=
            { match_count := ms.length, search_time_ms := t1e - t1s, cache_hit := false },
          matches' := ms } : Except ε LookupResponse) = .ok R1 := h1
    cases h1'
    have hc2 : ((Except.ok
        { domain := (getCacheKeyS q).2.domain,
          match_metadata :=
            { match_count := ms.length, search_time_ms := t1e - t1s, cache_hit := false },
          matches' := ms } : Except ε LookupResponse),
        fun k => if k = (getCacheKeyS q).1 then
            some { data :=
                     { domain := (getCacheKeyS q).2.domain,
                       match_metadata :=
                         { match_count := ms.length, search_time_ms := t1e - t1s,
                           cache_hit := false },
                       matches' := ms },
                   timestamp := t1e }
          else c k,
        (getCacheKeyS q).2).2.1 (getCacheKeyS q).1 =
        some { data :=
                 { domain := (getCacheKeyS q).2.domain,
                   match_metadata :=
                     { match_count := ms.length, search_time_ms := t1e - t1s,
                       cache_hit := false },
                   matches' := ms },
               timestamp := t1e } := by
      simp
    rw [lookupServers_hit hc2 httl]
    exact ⟨_, rfl, rfl, rfl, rfl, rfl, rfl⟩

/-- Concrete response of the first call of the C1 witness. -/
def r1val : LookupResponse :=
  { domain := "github.com",
    match_metadata := { match_count := 0, search_time_ms := 5, cache_hit := false },
    matches' := [] }

/-- C1 witness: the theorem applied to the empty store and empty
cache, with the first call at times 0 and 5 and the second at times 10
and 12. -/
theorem c1_witness :
    ∃ R2 : LookupResponse,
      (lookupServers trivStore q0 (lookupServers trivStore q0 cEmpty 0 5).2.1 10 12).1 =
        .ok R2 ∧
      R2.domain = r1val.domain ∧
      R2.matches' = r1val.matches' ∧
      R2.match_metadata.match_count = r1val.match_metadata.match_count ∧
      R2.match_metadata.cache_hit = true ∧
      R2 = { r1val with
             match_metadata :=
               { r1val.match_metadata with
                 cache_hit := true, search_time_ms := 12 - 10 } } :=
  c1_cache_hit_idempotent trivStore q0 cEmpty 0 5 10 12 r1val rfl (by decide) (by decide)

/-!
C10: the in-place sorts of getCacheKey, observable on the caller side.
The sorting helpers below show that the sorted arrays are a
permutation of the originals and are sorted for the lexicographic
comparison.
-/

theorem lexLeb_total : ∀ a b : List Char, lexLeb a b = true ∨ lexLeb b a = true := by
  intro a
  induction a with
  | nil => intro b; left; rfl
  | cons x xs ih =>
    intro b
    cases b with
    | nil => right; rfl
    | cons y ys =>
      by_cases hxy : x = y
      · subst hxy
        rcases ih ys with h | h
        · left; simpa [lexLeb] using h
        · right; simpa [lexLeb] using h
      · rcases lt_trichotomy x y with hlt | heq | hgt
        · left; simp [lexLeb, hxy, hlt]
        · exact absurd heq hxy
        · have hyx : ¬ y = x := fun h => hxy h.symm
          right; simp [lexLeb, hyx, hgt]

theorem lexLeb_trans : ∀ a b c : List Char,
    lexLeb a b = true → lexLeb b c = true → lexLeb a c = true := by
  intro a
  induction a with
  | nil => intro b c _ _; rfl
  | cons x xs ih =>
    intro b c h1 h2
    cases b with
    | nil => exact absurd h1 (by simp [lexLeb])
    | cons y ys =>
      cases c with
      | nil => exact absurd h2 (by simp [lexLeb])
      | cons z zs =>
        by_cases hxy : x = y <;> by_cases hyz : y = z
        · subst hxy; subst hyz
          simp only [lexLeb, if_pos rfl] at h1 h2 ⊢
          exact ih ys zs h1 h2
        · subst hxy
          simp [lexLeb, hyz] at h2 ⊢
          exact h2
        · subst hyz
          simp [lexLeb, hxy] at h1 ⊢
          exact h1
        · simp [lexLeb, hxy] at h1
          simp [lexLeb, hyz] at h2
          have hxz : x < z := lt_trans h1 h2
          simp [lexLeb, ne_of_lt hxz, hxz]

theorem strLeb_total (a b : String) : strLeb a b = true ∨ strLeb b a = true :=
  lexLeb_total a.data b.data

theorem strLeb_trans {a b c : String} (h1 : strLeb a b = true) (h2 : strLeb b c = true) :
    strLeb a c = true :=
  lexLeb_trans a.data b.data c.data h1 h2

theorem perm_insertSortedStr (s : String) :
    ∀ l : List String, (insertSortedStr s l).Perm (s :: l) := by
  intro l
  induction l with
  | nil => exact List.Perm.refl _
  | cons t ts ih =>
    unfold insertSortedStr
    split
    · exact List.Perm.refl _
    · exact (List.Perm.cons t ih).trans (List.Perm.swap s t ts)

theorem perm_sortedStrings (l : List String) : (sortedStrings l).Perm l := by
  induction l with
  | nil => exact List.Perm.refl _
  | cons s ts ih =>
    exact (perm_insertSortedStr s (sortedStrings ts)).trans (List.Perm.cons s ih)

theorem sorted_insertSortedStr (s : String) :
    ∀ l : List String, List.Sorted (fun a b => strLeb a b = true) l →
      List.Sorted (fun a b => strLeb a b = true) (insertSortedStr s l) := by
  intro l
  induction l with
  | nil => intro _; simp [insertSortedStr]
  | cons t ts ih =>
    intro h
    rw [List.sorted_cons] at h
    obtain ⟨ht, hts⟩ := h
    unfold insertSortedStr
    split
    · rename_i hc
      rw [List.sorted_cons]
      refine ⟨?_, List.sorted_cons.mpr ⟨ht, hts⟩⟩
      intro b hb
      rcases List.mem_cons.mp hb with hb | hb
      · exact hb ▸ hc
      · exact strLeb_trans hc (ht b hb)
    · rename_i hc
      rw [List.sorted_cons]
      refine ⟨?_, ih hts⟩
      intro b hb
      rcases List.mem_cons.mp ((perm_insertSortedStr s ts).mem_iff.mp hb) with hb | hb
      · rcases strLeb_total s t with hst | hts2
        · exact absurd hst hc
        · exact hb ▸ hts2
      · exact ht b hb

theorem sorted_sortedStrings (l : List String) :
    List.Sorted (fun a b => strLeb a b = true) (sortedStrings l) := by
  induction l with
  | nil => simp [sortedStrings]
  | cons s ts ih => exact sorted_insertSortedStr s (sortedStrings ts) ih

theorem lookupServers_query {ε : Type} (st : Store ε) (q : LookupQuery) (c : Cache)
    (ts te : Int) : (lookupServers st q c ts te).2.2 = (getCacheKeyS q).2 := by
  cases hc : c (getCacheKeyS q).1 with
  | none =>
    rw [lookupServers_miss hc]
    cases hp : lookupPipeline st (getCacheKeyS q).2 with
    | error e => rw [lookupMiss_error hp]
    | ok ms => rw [lookupMiss_ok hp]
  | some entry =>
    by_cases httl : ts - entry.timestamp < CACHE_TTL_MS
    · rw [lookupServers_hit hc httl]
    · rw [lookupServers_stale hc httl]
      cases hp : lookupPipeline st (getCacheKeyS q).2 with
      | error e => rw [lookupMiss_error hp]
      | ok ms => rw [lookupMiss_ok hp]

/-- C10: every call to lookupServers leaves the caller-visible query
with its trust_levels and deployment_types arrays sorted in place in
lexicographic order (a permutation of the original arrays), and every
other query field unchanged. -/
theorem c10_query_mutation {ε : Type} (st : Store ε) (q : LookupQuery) (c : Cache)
    (ts te : Int) :
    (lookupServers st q c ts te).2.2 =
      { q with trust_levels := sortedStrings q.trust_levels,
               deployment_types := sortedStrings q.deployment_types } ∧
    List.Sorted (fun a b => strLeb a b = true)
      (lookupServers st q c ts te).2.2.trust_levels ∧
    List.Sorted (fun a b => strLeb a b = true)
      (lookupServers st q c ts te).2.2.deployment_types ∧
    ((lookupServers st q c ts te).2.2.trust_levels).Perm q.trust_levels ∧
    ((lookupServers st q c ts te).2.2.deployment_types).Perm q.deployment_types ∧
    (lookupServers st q c ts te).2.2.domain = q.domain ∧
    (lookupServers st q c ts te).2.2.max_results = q.max_results ∧
    (lookupServers st q c ts te).2.2.include_categories = q.include_categories ∧
    (lookupServers st q c ts te).2.2.user_context = q.user_context := by
  rw [lookupServers_query]
  exact ⟨rfl, sorted_sortedStrings _, sorted_sortedStrings _,
    perm_sortedStrings _, perm_sortedStrings _, rfl, rfl, rfl, rfl⟩

/-!
C5: wildcard matching semantics. A star free glob accepts only the
pattern itself; substituting every star by an arbitrary string yields
an accepted text; and the literal tail after the last star must be a
suffix of any accepted text.
-/

theorem globMatch_star_free : ∀ p d : List Char, globMatch p d = true → '*' ∉ p → p = d := by
  intro p
  induction p with
  | nil =>
    intro d h _
    cases d with
    | nil => rfl
    | cons x ds => exact absurd h (by simp [globMatch])
  | cons c ps ih =>
    intro d h hstar
    have hc : c ≠ '*' := fun hh => hstar (by rw [← hh]; exact List.mem_cons_self c ps)
    unfold globMatch at h
    rw [if_neg hc] at h
    cases d with
    | nil => exact absurd h (by simp)
    | cons x ds =>
      rw [Bool.and_eq_true] at h
      have hcx : c = x := by simpa using h.1
      have hrest : ps = ds := ih ds h.2 (fun hm => hstar (List.mem_cons_of_mem c hm))
      rw [hcx, hrest]

theorem substStarL_matches (lab : List Char) :
    ∀ p : List Char, globMatch p (substStarL lab p) = true := by
  intro p
  induction p with
  | nil => rfl
  | cons c ps ih =>
    by_cases hc : c = '*'
    · subst hc
      show globMatch ('*' :: ps) (substStarL lab ('*' :: ps)) = true
      unfold globMatch
      rw [if_pos rfl, List.any_eq_true]
      refine ⟨substStarL lab ps, ?_, ih⟩
      rw [List.mem_tails]
      exact ⟨lab, by simp [substStarL]⟩
    · show globMatch (c :: ps) (substStarL lab (c :: ps)) = true
      unfold globMatch
      rw [if_neg hc]
      have hsub : substStarL lab (c :: ps) = c :: substStarL lab ps := by
        simp [substStarL, hc]
      rw [hsub]
      simp [ih]

theorem globMatch_suffix : ∀ p d : List Char,
    globMatch p d = true → '*' ∈ p → (afterLastStar p) <:+ d := by
  intro p
  induction p with
  | nil => intro d _ hs; simp at hs
  | cons c ps ih =>
    intro d h hs
    by_cases hc : c = '*'
    · subst hc
      unfold globMatch at h
      rw [if_pos rfl, List.any_eq_true] at h
      obtain ⟨s, hmem, hmatch⟩ := h
      rw [List.mem_tails] at hmem
      by_cases hps : '*' ∈ ps
      · have hafter : afterLastStar ('*' :: ps) = afterLastStar ps := by
          conv_lhs => rw [afterLastStar]
          rw [if_neg (fun hcond => hcond.2 hps)]
        rw [hafter]
        exact (ih s hmatch hps).trans hmem
      · have hafter : afterLastStar ('*' :: ps) = ps := by
          conv_lhs => rw [afterLastStar]
          rw [if_pos ⟨rfl, hps⟩]
        rw [hafter, globMatch_star_free ps s hmatch hps]
        exact hmem
    · have hps : '*' ∈ ps := by
        rcases List.mem_cons.mp hs with h1 | h1
        · exact absurd h1.symm hc
        · exact h1
      unfold globMatch at h
      rw [if_neg hc] at h
      cases d with
      | nil => exact absurd h (by simp)
      | cons x ds =>
        rw [Bool.and_eq_true] at h
        have hafter : afterLastStar (c :: ps) = afterLastStar ps := by
          conv_lhs => rw [afterLastStar]
          rw [if_neg (fun hcond => hc hcond.1)]
        rw [hafter]
        exact (ih ds h.2 hps).trans (List.suffix_cons x ds)

/-- C5: the wildcard matcher tests the whole domain against the
anchored pattern. For a pattern containing a star, substituting any
label for the stars yields a matching domain, and any domain that does
not end with the literal tail of the pattern after its last star does
not match. -/
theorem c5_wildcard_semantics (P D L : String) (hstar : '*' ∈ P.data) :
    (matchesWildcard D P = true → L ≠ "" →
      matchesWildcard (substStar P L) P = true) ∧
    (¬ (afterLastStar P.data) <:+ D.data → matchesWildcard D P = false) := by
  constructor
  · intro _ _
    exact substStarL_matches L.data P.data
  · intro hsuf
    cases hmw : matchesWildcard D P with
    | false => rfl
    | true => exact absurd (globMatch_suffix P.data D.data hmw hstar) hsuf

/-- C5 witness: the theorem applied to the pattern star dot com, with
matching domain x.com, label y and the non-matching domain xnet. -/
theorem c5_witness :
    matchesWildcard (substStar "*.com" "y") "*.com" = true ∧
    matchesWildcard "xnet" "*.com" = false :=
  ⟨(c5_wildcard_semantics "*.com" "x.com" "y" (by decide)).1 (by decide) (by decide),
   (c5_wildcard_semantics "*.com" "xnet" "y" (by decide)).2 (by decide)⟩

/-!
C6: injectivity of the cache key over the five query fields. The key
is parsed back by splitting at the colon separators, which cannot
occur inside any component: the domain is restricted to DNS
characters, the sorted joined enumeration names contain neither comma
nor colon, the decimal representation of max_results consists of
digits, and the boolean renders as true or false.
-/

theorem strData_append (a b : String) : (a ++ b).data = a.data ++ b.data := by
  cases a
  cases b
  rfl

theorem strData_inj {a b : String} (h : a.data = b.data) : a = b := by
  cases a
  cases b
  cases h
  rfl

theorem sep_split (c : Char) : ∀ (a b r s : List Char), c ∉ a → c ∉ b →
    a ++ c :: r = b ++ c :: s → a = b ∧ r = s := by
  intro a
  induction a with
  | nil =>
    intro b r s _ hb h
    cases b with
    | nil =>
      simp only [List.nil_append] at h
      exact ⟨rfl, List.cons.inj h |>.2⟩
    | cons y ys =>
      rw [List.nil_append, List.cons_append] at h
      injection h with h1 _
      exact absurd (by rw [h1]; exact List.mem_cons_self y ys) hb
  | cons x xs ih =>
    intro b r s ha hb h
    cases b with
    | nil =>
      rw [List.nil_append, List.cons_append] at h
      injection h with h1 _
      exact absurd (by rw [← h1]; exact List.mem_cons_self x xs) ha
    | cons y ys =>
      rw [List.cons_append, List.cons_append] at h
      injection h with h1 h2
      have hx : c ∉ xs := fun hm => ha (List.mem_cons_of_mem x hm)
      have hy : c ∉ ys := fun hm => hb (List.mem_cons_of_mem y hm)
      obtain ⟨hb1, hb2⟩ := ih ys r s hx hy h2
      exact ⟨by rw [h1, hb1], hb2⟩

theorem mem_joinSep (sep : String) : ∀ (l : List String) (c : Char),
    c ∈ (joinSep sep l).data → c ∈ sep.data ∨ ∃ w ∈ l, c ∈ w.data := by
  intro l
  induction l with
  | nil =>
    intro c h
    simp [joinSep] at h
  | cons s rest ih =>
    cases rest with
    | nil =>
      intro c h
      exact Or.inr ⟨s, List.mem_cons_self _ _, h⟩
    | cons t ts =>
      intro c h
      rw [show joinSep sep (s :: t :: ts) = s ++ sep ++ joinSep sep (t :: ts) from rfl] at h
      rw [strData_append, strData_append] at h
      rcases List.mem_append.mp h with h1 | h1
      · rcases List.mem_append.mp h1 with h2 | h2
        · exact Or.inr ⟨s, List.mem_cons_self _ _, h2⟩
        · exact Or.inl h2
      · rcases ih c h1 with h2 | ⟨w, hw, hc⟩
        · exact Or.inl h2
        · exact Or.inr ⟨w, List.mem_cons_of_mem _ hw, hc⟩

theorem joinSep_comma_inj : ∀ l1 l2 : List String,
    (∀ w ∈ l1, w ≠ "" ∧ ',' ∉ w.data) → (∀ w ∈ l2, w ≠ "" ∧ ',' ∉ w.data) →
    joinSep "," l1 = joinSep "," l2 → l1 = l2 := by
  have hcomma : ("," : String).data = [','] := rfl
  intro l1
  induction l1 with
  | nil =>
    intro l2 _ h2 heq
    cases l2 with
    | nil => rfl
    | cons s rest =>
      cases rest with
      | nil => exact absurd heq.symm (h2 s (List.mem_cons_self _ _)).1
      | cons t ts =>
        have hd := congrArg String.data heq
        rw [show joinSep "," (s :: t :: ts) = s ++ "," ++ joinSep "," (t :: ts) from rfl] at hd
        rw [strData_append, strData_append, hcomma] at hd
        rw [show (joinSep "," ([] : List String)).data = [] from rfl] at hd
        simp at hd
  | cons s1 rest1 ih =>
    intro l2 h1 h2 heq
    cases l2 with
    | nil =>
      cases rest1 with
      | nil => exact absurd heq (h1 s1 (List.mem_cons_self _ _)).1
      | cons t1 ts1 =>
        have hd := congrArg String.data heq
        rw [show joinSep "," (s1 :: t1 :: ts1) = s1 ++ "," ++ joinSep "," (t1 :: ts1) from rfl] at hd
        rw [strData_append, strData_append, hcomma] at hd
        rw [show (joinSep "," ([] : List String)).data = [] from rfl] at hd
        simp at hd
    | cons s2 rest2 =>
      cases rest1 with
      | nil =>
        cases rest2 with
        | nil =>
          have hs : s1 = s2 := heq
          rw [hs]
        | cons t2 ts2 =>
          have hd := congrArg String.data heq
          rw [show joinSep "," (s2 :: t2 :: ts2) = s2 ++ "," ++ joinSep "," (t2 :: ts2) from rfl] at hd
          rw [strData_append, strData_append, hcomma] at hd
          have hmem : ',' ∈ s1.data := by
            rw [show (joinSep "," [s1]).data = s1.data from rfl] at hd
            rw [hd]
            simp
          exact absurd hmem (h1 s1 (List.mem_cons_self _ _)).2
      | cons t1 ts1 =>
        cases rest2 with
        | nil =>
          have hd := congrArg String.data heq
          rw [show joinSep "," (s1 :: t1 :: ts1) = s1 ++ "," ++ joinSep "," (t1 :: ts1) from rfl] at hd
          rw [strData_append, strData_append, hcomma] at hd
          have hmem : ',' ∈ s2.data := by
            rw [show (joinSep "," [s2]).data = s2.data from rfl] at hd
            rw [← hd]
            simp
          exact absurd hmem (h2 s2 (List.mem_cons_self _ _)).2
        | cons t2 ts2 =>
          have hd := congrArg String.data heq
          rw [show joinSep "," (s1 :: t1 :: ts1) = s1 ++ "," ++ joinSep "," (t1 :: ts1) from rfl] at hd
          rw [show joinSep "," (s2 :: t2 :: ts2) = s2 ++ "," ++ joinSep "," (t2 :: ts2) from rfl] at hd
          rw [strData_append, strData_append, strData_append, strData_append, hcomma] at hd
          have hd' : s1.data ++ ',' :: (joinSep "," (t1 :: ts1)).data =
              s2.data ++ ',' :: (joinSep "," (t2 :: ts2)).data := by
            simpa [List.append_assoc] using hd
          obtain ⟨hs, hj⟩ := sep_split ',' _ _ _ _
            (h1 s1 (List.mem_cons_self _ _)).2 (h2 s2 (List.mem_cons_self _ _)).2 hd'
          have hrest := ih (t2 :: ts2)
            (fun w hw => h1 w (List.mem_cons_of_mem _ hw))
            (fun w hw => h2 w (List.mem_cons_of_mem _ hw))
            (strData_inj hj)
          rw [strData_inj hs, hrest]

/-- DNS domain syntax as far as the key parser needs it: every
character is alphanumeric, a hyphen or a dot. The schema regex for
domains enforces this before the core is invoked. -/
abbrev validDomainChars (s : String) : Prop :=
  ∀ c ∈ s.data, c.isAlphanum = true ∨ c = '-' ∨ c = '.'

theorem colon_notin_domain {s : String} (h : validDomainChars s) : ':' ∉ s.data := by
  intro hm
  rcases h ':' hm with h1 | h1 | h1
  · exact absurd h1 (by decide)
  · exact absurd h1 (by decide)
  · exact absurd h1 (by decide)

theorem name_props_trust : ∀ w : String,
    w = "verified" ∨ w = "community" ∨ w = "unverified" →
    w ≠ "" ∧ ',' ∉ w.data ∧ ':' ∉ w.data := by
  rintro w (rfl | rfl | rfl) <;> exact ⟨by decide, by decide, by decide⟩

theorem name_props_deploy : ∀ w : String,
    w = "local" ∨ w = "remote" ∨ w = "hybrid" →
    w ≠ "" ∧ ',' ∉ w.data ∧ ':' ∉ w.data := by
  rintro w (rfl | rfl | rfl) <;> exact ⟨by decide, by decide, by decide⟩

theorem repr_colon_free : ∀ n : Nat, n ≤ 50 → ':' ∉ (Nat.repr n).data := by decide

theorem repr_inj50 : ∀ a : Nat, a ≤ 50 → ∀ b : Nat, b ≤ 50 →
    Nat.repr a = Nat.repr b → a = b := by decide

theorem getCacheKey_data (q : LookupQuery) :
    (getCacheKey q).data =
      q.domain.data ++ ':' ::
        ((joinSep "," (sortedStrings q.trust_levels)).data ++ ':' ::
          ((joinSep "," (sortedStrings q.deployment_types)).data ++ ':' ::
            ((Nat.repr q.max_results).data ++ ':' ::
              (if q.include_categories then "true" else "false").data))) := by
  have hcolon : (":" : String).data = [':'] := rfl
  show (q.domain ++ ":" ++ joinSep "," (sortedStrings q.trust_levels) ++ ":" ++
      joinSep "," (sortedStrings q.deployment_types) ++ ":" ++
      Nat.repr q.max_results ++ ":" ++
      (if q.include_categories then "true" else "false")).data = _
  rw [strData_append, strData_append, strData_append, strData_append,
      strData_append, strData_append, strData_append, strData_append, hcolon]
  simp [List.append_assoc]

theorem cacheKey_fields (q1 q2 : LookupQuery)
    (hd1 : validDomainChars q1.domain) (hd2 : validDomainChars q2.domain)
    (ht1 : ∀ w ∈ q1.trust_levels, w = "verified" ∨ w = "community" ∨ w = "unverified")
    (ht2 : ∀ w ∈ q2.trust_levels, w = "verified" ∨ w = "community" ∨ w = "unverified")
    (hy1 : ∀ w ∈ q1.deployment_types, w = "local" ∨ w = "remote" ∨ w = "hybrid")
    (hy2 : ∀ w ∈ q2.deployment_types, w = "local" ∨ w = "remote" ∨ w = "hybrid")
    (hm1 : q1.max_results ≤ 50) (hm2 : q2.max_results ≤ 50)
    (hk : getCacheKey q1 = getCacheKey q2) :
    q1.domain = q2.domain ∧
    (∀ x, x ∈ q1.trust_levels ↔ x ∈ q2.trust_levels) ∧
    (∀ x, x ∈ q1.deployment_types ↔ x ∈ q2.deployment_types) ∧
    q1.max_results = q2.max_results ∧
    q1.include_categories = q2.include_categories := by
  have hd := congrArg String.data hk
  rw [getCacheKey_data, getCacheKey_data] at hd
  have hT1 : ':' ∉ (joinSep "," (sortedStrings q1.trust_levels)).data := by
    intro hm
    rcases mem_joinSep "," _ ':' hm with h | ⟨w, hw, hc⟩
    · exact absurd h (by decide)
    · exact (name_props_trust w (ht1 w ((perm_sortedStrings _).mem_iff.mp hw))).2.2 hc
  have hT2 : ':' ∉ (joinSep "," (sortedStrings q2.trust_levels)).data := by
    intro hm
    rcases mem_joinSep "," _ ':' hm with h | ⟨w, hw, hc⟩
    · exact absurd h (by decide)
    · exact (name_props_trust w (ht2 w ((perm_sortedStrings _).mem_iff.mp hw))).2.2 hc
  have hY1 : ':' ∉ (joinSep "," (sortedStrings q1.deployment_types)).data := by
    intro hm
    rcases mem_joinSep "," _ ':' hm with h | ⟨w, hw, hc⟩
    · exact absurd h (by decide)
    · exact (name_props_deploy w (hy1 w ((perm_sortedStrings _).mem_iff.mp hw))).2.2 hc
  have hY2 : ':' ∉ (joinSep "," (sortedStrings q2.deployment_types)).data := by
    intro hm
    rcases mem_joinSep "," _ ':' hm with h | ⟨w, hw, hc⟩
    · exact absurd h (by decide)
    · exact (name_props_deploy w (hy2 w ((perm_sortedStrings _).mem_iff.mp hw))).2.2 hc
  obtain ⟨h1, hd⟩ := sep_split ':' _ _ _ _
    (colon_notin_domain hd1) (colon_notin_domain hd2) hd
  obtain ⟨h2, hd⟩ := sep_split ':' _ _ _ _ hT1 hT2 hd
  obtain ⟨h3, hd⟩ := sep_split ':' _ _ _ _ hY1 hY2 hd
  obtain ⟨h4, h5⟩ := sep_split ':' _ _ _ _
    (repr_colon_free _ hm1) (repr_colon_free _ hm2) hd
  refine ⟨strData_inj h1, ?_, ?_, repr_inj50 _ hm1 _ hm2 (strData_inj h4), ?_⟩
  · have hsorted : sortedStrings q1.trust_levels = sortedStrings q2.trust_levels :=
      joinSep_comma_inj _ _
        (fun w hw =>
          have hp := name_props_trust w (ht1 w ((perm_sortedStrings _).mem_iff.mp hw))
          ⟨hp.1, hp.2.1⟩)
        (fun w hw =>
          have hp := name_props_trust w (ht2 w ((perm_sortedStrings _).mem_iff.mp hw))
          ⟨hp.1, hp.2.1⟩)
        (strData_inj h2)
    have hperm : q1.trust_levels.Perm q2.trust_levels :=
      (perm_sortedStrings q1.trust_levels).symm.trans
        (hsorted ▸ perm_sortedStrings q2.trust_levels)
    exact fun x => hperm.mem_iff
  · have hsorted : sortedStrings q1.deployment_types = sortedStrings q2.deployment_types :=
      joinSep_comma_inj _ _
        (fun w hw =>
          have hp := name_props_deploy w (hy1 w ((perm_sortedStrings _).mem_iff.mp hw))
          ⟨hp.1, hp.2.1⟩)
        (fun w hw =>
          have hp := name_props_deploy w (hy2 w ((perm_sortedStrings _).mem_iff.mp hw))
          ⟨hp.1, hp.2.1⟩)
        (strData_inj h3)
    have hperm : q1.deployment_types.Perm q2.deployment_types :=
      (perm_sortedStrings q1.deployment_types).symm.trans
        (hsorted ▸ perm_sortedStrings q2.deployment_types)
    exact fun x => hperm.mem_iff
  · have hb := strData_inj h5
    cases hic1 : q1.include_categories <;> cases hic2 : q2.include_categories
    · rfl
    · rw [hic1, hic2] at hb
      exact absurd hb (by decide)
    · rw [hic1, hic2] at hb
      exact absurd hb (by decide)
    · rfl

/-- C6: the cache key function is injective over the five fields
domain, trust_levels, deployment_types, max_results and
include_categories, for queries whose domain uses DNS characters,
whose two set valued fields are drawn from their closed enumerations
and whose max_results lies in the schema range up to 50: two such
queries that differ in any of the five fields (the set valued fields
compared as sets) receive different cache keys. -/
theorem c6_cache_key_injective (q1 q2 : LookupQuery)
    (hd1 : validDomainChars q1.domain) (hd2 : validDomainChars q2.domain)
    (ht1 : ∀ w ∈ q1.trust_levels, w = "verified" ∨ w = "community" ∨ w = "unverified")
    (ht2 : ∀ w ∈ q2.trust_levels, w = "verified" ∨ w = "community" ∨ w = "unverified")
    (hy1 : ∀ w ∈ q1.deployment_types, w = "local" ∨ w = "remote" ∨ w = "hybrid")
    (hy2 : ∀ w ∈ q2.deployment_types, w = "local" ∨ w = "remote" ∨ w = "hybrid")
    (hm1 : q1.max_results ≤ 50) (hm2 : q2.max_results ≤ 50)
    (hdiff : ¬ (q1.domain = q2.domain ∧
      (∀ x, x ∈ q1.trust_levels ↔ x ∈ q2.trust_levels) ∧
      (∀ x, x ∈ q1.deployment_types ↔ x ∈ q2.deployment_types) ∧
      q1.max_results = q2.max_results ∧
      q1.include_categories = q2.include_categories)) :
    getCacheKey q1 ≠ getCacheKey q2 :=
  fun hk => hdiff (cacheKey_fields q1 q2 hd1 hd2 ht1 ht2 hy1 hy2 hm1 hm2 hk)

/-- C6 witness: the theorem applied to the default query and the same
query for a different domain; their cache keys differ. -/
theorem c6_witness :
    getCacheKey q0 ≠ getCacheKey { q0 with domain := "gitlab.com" } :=
  c6_cache_key_injective q0 { q0 with domain := "gitlab.com" }
    (by decide) (by decide) (by decide) (by decide) (by decide) (by decide)
    (by decide) (by decide)
    (fun hcontra => absurd hcontra.1 (by decide))
